import Mathlib

/-!
Verification development for the pixelGroomer import and archive-integrity
engine.  The metadata gateway (`lib/exif_utils.py`) is embedded directly from
the Python source; the import pipeline and the checksum ledger, whose scripts
are not part of the library sources, are modelled from the specification
(each such definition says so in its doc comment).
-/

namespace PixelGroomer

/-! ### Decimal digit strings -/

/-- The character for a single decimal digit (`'0'` for 0, …, `'9'` for 9). -/
def digitChar (d : Nat) : Char := Char.ofNat (48 + d)

/-- Fuel-driven most-significant-first decimal digits of a natural number. -/
def natDigitsAux : Nat → Nat → List Char
  | 0, _ => []
  | fuel + 1, n =>
    if n < 10 then [digitChar n]
    else natDigitsAux fuel (n / 10) ++ [digitChar (n % 10)]

/-- Decimal digits of `n`, most significant first; never empty. -/
def natToDigits (n : Nat) : List Char := natDigitsAux (n + 1) n

/-- Numeric value of a digit character. -/
def digitVal (c : Char) : Nat := c.toNat - 48

/-- Value of a most-significant-first digit string. -/
def digitsToNat (l : List Char) : Nat := l.foldl (fun a c => a * 10 + digitVal c) 0

/-- Zero-pad a digit string on the left to (at least) width `w`; this is the
`%0wd` minimum-width semantics used by the naming pattern. -/
def padLeft (w : Nat) (l : List Char) : List Char := List.replicate (w - l.length) '0' ++ l

/-- Strip an exact leading run `p` from `l`, returning the remainder. -/
def stripLead : List Char → List Char → Option (List Char)
  | [], l => some l
  | _ :: _, [] => none
  | a :: ps, b :: ls => if a = b then stripLead ps ls else none

/-- Whether `seg` occurs contiguously inside `l`. -/
def containsSeg (seg : List Char) : List Char → Bool
  | [] => seg.isEmpty
  | c :: t => (stripLead seg (c :: t)).isSome || containsSeg seg t

/-! ### Metadata gateway, embedded from `src/lib/exif_utils.py` (class `ExifTool`).
The external exiftool process is abstracted: its exit code, its JSON output and
its success on a write invocation are parameters of the embedded methods. -/

namespace ExifTool

/-- A parsed `datetime` value as produced by `datetime.strptime`. -/
structure DateTime where
  year : Nat
  month : Nat
  day : Nat
  hour : Nat
  minute : Nat
  second : Nat
deriving DecidableEq, Repr

/-- ASCII lower-casing of one character, modelling `str.lower` on the ASCII
field names used by `ExifTool.write`. -/
def lowerChar (c : Char) : Char :=
  if 'A' ≤ c ∧ c ≤ 'Z' then Char.ofNat (c.toNat + 32) else c

/-- ASCII lower-casing of a field name (`field.lower()` in the source). -/
def lowerStr (s : String) : String := ⟨s.data.map lowerChar⟩

/-- The `FIELD_MAP` table from `exif_utils.py`: logical field names mapped to the
exiftool tag arguments they are written to, redundantly across namespaces. -/
def FIELD_MAP : List (String × List String) :=
  [ ("author", ["-Artist", "-XMP:Creator", "-IPTC:By-line"]),
    ("copyright", ["-Copyright", "-XMP:Rights", "-IPTC:CopyrightNotice"]),
    ("event", ["-XMP:Event", "-IPTC:Caption-Abstract"]),
    ("location", ["-XMP:Location", "-IPTC:City"]),
    ("description", ["-ImageDescription", "-XMP:Description", "-IPTC:Caption-Abstract"]),
    ("title", ["-XMP:Title", "-IPTC:ObjectName"]),
    ("keywords", ["-XMP:Subject", "-IPTC:Keywords"]) ]

def fieldMapLookup (k : String) : Option (List String) :=
  (FIELD_MAP.find? (fun p => p.1 == k)).map (·.2)

/-- Sign prefix of a Python numeric literal: returns (isNegative, rest). -/
def parseSign : List Char → Bool × List Char
  | '-' :: r => (true, r)
  | '+' :: r => (false, r)
  | l => (false, l)

/-- Trailing exponent of a float literal (`e`/`E`, optional sign, digits), or
`some 0` when the remainder is empty.  `none` means the literal is malformed. -/
def parseExp : List Char → Option Int
  | [] => some 0
  | c :: r =>
    if c = 'e' ∨ c = 'E' then
      let (neg, r1) := parseSign r
      let ds := r1.takeWhile Char.isDigit
      let r2 := r1.dropWhile Char.isDigit
      if ds.isEmpty || !r2.isEmpty then none
      else some (if neg then -(digitsToNat ds : Int) else (digitsToNat ds : Int))
    else none

/-- Strip leading and trailing whitespace, as `float()` does on its argument. -/
def trimChars (l : List Char) : List Char :=
  ((l.dropWhile Char.isWhitespace).reverse.dropWhile Char.isWhitespace).reverse

/-- A parsed Python float literal, kept in the exact decimal form it was
written in: sign, value of the integer-part digits, value and count of the
fraction-part digits, and the exponent.  The represented number is
`PyFloat.val`; keeping the decomposition (rather than a normalised rational)
makes equality of built argument lists decidable by evaluation. -/
structure PyFloat where
  neg : Bool
  ip : Nat
  fp : Nat
  fplen : Nat
  exp : Int
deriving DecidableEq, Repr

/-- The rational number a parsed float denotes. -/
def PyFloat.val (d : PyFloat) : ℚ :=
  (if d.neg then -1 else 1) * (((d.ip : ℚ) + (d.fp : ℚ) / (10 : ℚ) ^ d.fplen) * (10 : ℚ) ^ d.exp)

/-- Python `abs` on a parsed float: clear the sign. -/
def PyFloat.abs (d : PyFloat) : PyFloat := { d with neg := false }

/-- Whether the float compares `>= 0` in Python (true also for `-0.0`). -/
def PyFloat.nonneg (d : PyFloat) : Bool := !d.neg || (d.ip == 0 && d.fp == 0)

/-- Python `float()` restricted to plain decimal numerals (optional sign,
digits with an optional fractional part, optional exponent).  The special
spellings `inf`/`nan`/underscores are not modelled — no GPS coordinate uses
them. -/
def parseFloat (s : String) : Option PyFloat :=
  let l := trimChars s.data
  let (neg, r1) := parseSign l
  let ip := r1.takeWhile Char.isDigit
  let r2 := r1.dropWhile Char.isDigit
  match r2 with
  | '.' :: r3 =>
    let fp := r3.takeWhile Char.isDigit
    let r4 := r3.dropWhile Char.isDigit
    if ip.isEmpty && fp.isEmpty then none
    else
      (parseExp r4).map fun e => ⟨neg, digitsToNat ip, digitsToNat fp, fp.length, e⟩
  | _ =>
    if ip.isEmpty then none
    else (parseExp r2).map fun e => ⟨neg, digitsToNat ip, 0, 0, e⟩

/-- Split on `','` exactly as Python `str.split(',')`. -/
def splitCommaAux (cur : List Char) : List Char → List (List Char)
  | [] => [cur.reverse]
  | c :: r => if c = ',' then cur.reverse :: splitCommaAux [] r else splitCommaAux (c :: cur) r

def splitComma (l : List Char) : List (List Char) := splitCommaAux [] l

/-- The unpacking `lat, lon = map(float, str(value).split(','))`: succeeds exactly when the
string splits into two comma-separated parts and both parse as floats. -/
def parseGps (v : String) : Option (PyFloat × PyFloat) :=
  match splitComma v.data with
  | [a, b] =>
    match parseFloat ⟨a⟩, parseFloat ⟨b⟩ with
    | some la, some lo => some (la, lo)
    | _, _ => none
  | _ => none

/-- One exiftool command-line argument, structured: a bare flag, a `-Tag=value`
assignment (numeric GPS magnitudes keep their parsed decimal form), or a
target file path. -/
inductive ArgVal where
  | txt (s : String)
  | num (q : PyFloat)
deriving DecidableEq, Repr

inductive ExifArg where
  | flag (s : String)
  | assign (tag : String) (v : ArgVal)
  | file (p : String)
deriving DecidableEq, Repr

/-- The four GPS arguments emitted for a well-formed `"lat,lon"` value:
absolute magnitudes plus hemisphere references (`lat >= 0` picks `"N"`,
`lon >= 0` picks `"E"`). -/
def gpsArgs (lat lon : PyFloat) : List ExifArg :=
  [ .assign "-GPSLatitude" (.num lat.abs),
    .assign "-GPSLatitudeRef" (.txt (if lat.nonneg then "N" else "S")),
    .assign "-GPSLongitude" (.num lon.abs),
    .assign "-GPSLongitudeRef" (.txt (if lon.nonneg then "E" else "W")) ]

/-- Arguments (and warnings) contributed by one keyword field with a non-None
value: mapped tags for known fields, decomposed GPS arguments for `gps`
(a stderr warning and no arguments when the value is malformed), and a direct
`-field=value` assignment otherwise.  This loop body is written once here; the
source repeats it verbatim in `write` and `write_batch`. -/
def fieldArgs (field : String) (value : String) : List ExifArg × List String :=
  let fl := lowerStr field
  match fieldMapLookup fl with
  | some tags => (tags.map (fun t => .assign t (.txt value)), [])
  | none =>
    if fl = "gps" then
      match parseGps value with
      | some (lat, lon) => (gpsArgs lat lon, [])
      | none => ([], ["Warning: Invalid GPS format: " ++ value])
    else ([.assign ("-" ++ field) (.txt value)], [])

/-- The argument-building loop over `kwargs.items()`: fields with value `None`
are skipped (`if value is None: continue`), the rest contribute in order. -/
def buildArgs : List (String × Option String) → List ExifArg × List String
  | [] => ([], [])
  | (_, none) :: rest => buildArgs rest
  | (f, some v) :: rest =>
    let fa := fieldArgs f v
    let ra := buildArgs rest
    (fa.1 ++ ra.1, fa.2 ++ ra.2)

/-- Full argument list of `ExifTool.write`. -/
def writeArgs (filepath : String) (fields : List (String × Option String)) : List ExifArg :=
  .flag "-overwrite_original" :: (buildArgs fields).1 ++ [.file filepath]

/-- Embedding of `ExifTool.write`: builds the arguments and reports the external tool's
success; `tool` abstracts the exiftool invocation. -/
def write (tool : List ExifArg → Bool) (filepath : String)
    (fields : List (String × Option String)) : Bool :=
  tool (writeArgs filepath fields)

/-- Warnings printed to stderr by one `write`/`write_batch` call. -/
def writeWarnings (fields : List (String × Option String)) : List String :=
  (buildArgs fields).2

/-- Full argument list of `ExifTool.write_batch`. -/
def writeBatchArgs (filepaths : List String) (fields : List (String × Option String)) :
    List ExifArg :=
  .flag "-overwrite_original" :: (buildArgs fields).1 ++ filepaths.map .file

/-- Result counting of `write_batch`: the count parsed from an
`"(\d+) image files updated"` line when present, otherwise the number of files
on success and `0` on failure.  The stdout scan is abstracted as `updated`. -/
def writeBatchCount (updated : Option Nat) (returncode : Int) (numFiles : Nat) : Nat :=
  match updated with
  | some k => k
  | none => if returncode = 0 then numFiles else 0

/-- Embedding of `ExifTool.write_batch` for a non-empty file list: builds the same argument
list and counts successes from the abstracted tool outcome. -/
def write_batch (tool : List ExifArg → Int × Option Nat) (filepaths : List String)
    (fields : List (String × Option String)) : Nat :=
  let out := tool (writeBatchArgs filepaths fields)
  writeBatchCount out.2 out.1 filepaths.length

/-- A flat namespaced metadata map as decoded from exiftool's JSON output
(keys look like `Group:Field`). -/
def Metadata := List (String × String)

def lookupMeta (m : Metadata) (k : String) : Option String :=
  (m.find? (fun p => p.1 == k)).map (·.2)

/-- Embedding of `ExifTool.read`: empty map whenever the tool exits non-zero, the output is
not valid JSON (`stdout_json = none`), or the decoded array is empty. -/
def read (returncode : Int) (stdout_json : Option (List Metadata)) : Metadata :=
  if returncode ≠ 0 then []
  else
    match stdout_json with
    | none => []
    | some [] => []
    | some (d :: _) => d

/-- Candidates for a one-or-two digit `strptime` field, longest first: the
two-digit reading when its value lies in `[lo2, hi2]`, then the one-digit
reading when its value is at least `lo1` (this mirrors the alternation order
of CPython's `_strptime` regular expressions). -/
def fieldCands (lo2 hi2 lo1 : Nat) : List Char → List (Nat × List Char)
  | a :: b :: r =>
    (if a.isDigit ∧ b.isDigit ∧ lo2 ≤ 10 * digitVal a + digitVal b
        ∧ 10 * digitVal a + digitVal b ≤ hi2
     then [(10 * digitVal a + digitVal b, r)] else [])
    ++ (if a.isDigit ∧ lo1 ≤ digitVal a then [(digitVal a, b :: r)] else [])
  | [a] => if a.isDigit ∧ lo1 ≤ digitVal a then [(digitVal a, [])] else []
  | [] => []

def expectChar (c : Char) : List Char → Option (List Char)
  | x :: r => if x = c then some r else none
  | [] => none

def tryEach {α : Type} (cands : List (Nat × List Char))
    (k : Nat → List Char → Option α) : Option α :=
  cands.findSome? (fun p => k p.1 p.2)

def leapYear (y : Nat) : Bool := (y % 4 == 0 && y % 100 != 0) || y % 400 == 0

def daysInMonth (y m : Nat) : Nat :=
  if m = 2 then (if leapYear y then 29 else 28)
  else if m = 4 ∨ m = 6 ∨ m = 9 ∨ m = 11 then 30
  else 31

/-- Embedding of `datetime.strptime(s, "%Y:%m:%d %H:%M:%S")` as a total function: a
four-digit year, one-or-two-digit month/day/hour/minute/second separated by
the literal pattern characters, the whole string consumed, followed by the
`datetime` constructor's range validation (year at least 1, day within the
month, seconds at most 59). -/
def parseExifDate (s : String) : Option DateTime :=
  match s.data with
  | y1 :: y2 :: y3 :: y4 :: r0 =>
    if y1.isDigit ∧ y2.isDigit ∧ y3.isDigit ∧ y4.isDigit then
      let y := digitsToNat [y1, y2, y3, y4]
      (expectChar ':' r0).bind fun r1 =>
      tryEach (fieldCands 1 12 1 r1) fun m r2 =>
      (expectChar ':' r2).bind fun r3 =>
      tryEach (fieldCands 1 31 1 r3) fun d r4 =>
      (expectChar ' ' r4).bind fun r5 =>
      tryEach (fieldCands 0 23 0 r5) fun hh r6 =>
      (expectChar ':' r6).bind fun r7 =>
      tryEach (fieldCands 0 59 0 r7) fun mm r8 =>
      (expectChar ':' r8).bind fun r9 =>
      tryEach (fieldCands 0 61 0 r9) fun ss r10 =>
      if r10 = [] ∧ 1 ≤ y ∧ d ≤ daysInMonth y m ∧ ss ≤ 59 then
        some ⟨y, m, d, hh, mm, ss⟩
      else none
    else none
  | _ => none

/-- One iteration of the `read_date` field loop: skip a missing or falsy
(empty) value, otherwise `strptime` the first 19 characters, failure meaning
`continue`. -/
def tryDateField (m : Metadata) (k : String) : Option DateTime :=
  match lookupMeta m k with
  | none => none
  | some s => if s.data.isEmpty then none else parseExifDate ⟨s.data.take 19⟩

/-- Embedding of `ExifTool.read_date`: the date fields tried in order of preference —
`EXIF:DateTimeOriginal`, `EXIF:CreateDate`, then `File:FileModifyDate`
(the filesystem modification time) — and `None` when every attempt fails. -/
def read_date (m : Metadata) : Option DateTime :=
  match tryDateField m "EXIF:DateTimeOriginal" with
  | some t => some t
  | none =>
    match tryDateField m "EXIF:CreateDate" with
    | some t => some t
    | none => tryDateField m "File:FileModifyDate"

end ExifTool

/-! ### Import pipeline.
The `pg-import` script itself is not among the library sources (only its tests
are), so the naming/placement engine, the config resolver and the orchestrator
are modelled from the specification, as the doc comments state. -/

namespace Import

/-- Modelled from the spec: one `SourceFile` discovered under the import root —
source path (the lexical tie-break key), capture timestamp (a totally ordered
instant), its calendar date fields, and the case-preserved original
extension. -/
structure SourceItem where
  path : List Char
  time : Nat
  year : Nat
  month : Nat
  day : Nat
  ext : List Char
deriving DecidableEq, Repr

/-- Modelled from the spec: capture-time processing order, ties broken by
original source path lexical order. -/
def leChars : List Char → List Char → Bool
  | [], _ => true
  | _ :: _, [] => false
  | a :: as, b :: bs => if a = b then leChars as bs else decide (a < b)

def itemLE (f g : SourceItem) : Bool :=
  f.time < g.time || (f.time == g.time && leChars f.path g.path)

def insertBy {α : Type} (le : α → α → Bool) (a : α) : List α → List α
  | [] => [a]
  | b :: bs => if le a b then a :: b :: bs else b :: insertBy le a bs

def sortBy {α : Type} (le : α → α → Bool) (l : List α) : List α :=
  l.foldr (insertBy le) []

/-- The files of one run in processing order. -/
def sortRun (files : List SourceItem) : List SourceItem := sortBy itemLE files

/-- Modelled from the spec: the compact `{date}` token `YYYYMMDD`
(four-digit zero-padded year, two-digit month and day). -/
def d8Of (f : SourceItem) : List Char :=
  padLeft 4 (natToDigits f.year) ++ padLeft 2 (natToDigits f.month) ++ padLeft 2 (natToDigits f.day)

/-- Modelled from the spec: the default folder pattern `{year}-{month}-{day}`,
one directory per day. -/
def folderOf (f : SourceItem) : List Char :=
  padLeft 4 (natToDigits f.year) ++ '-' :: padLeft 2 (natToDigits f.month)
    ++ '-' :: padLeft 2 (natToDigits f.day)

/-- Modelled from the spec: the `{seq:03d}` token — the sequence number
zero-padded to a minimum width of three digits. -/
def seqStr (n : Nat) : List Char := padLeft 3 (natToDigits n)

/-- The literal text between the `{date}` token and the `{seq}` token: `_`
followed by `event_` when an event is in effect (default pattern
`{date}_{event}_{seq:03d}`), plain `_` in the trip-mode fallback pattern
`{date}_{seq:03d}`. -/
def sepOf : Option (List Char) → List Char
  | some e => '_' :: (e ++ ['_'])
  | none => ['_']

/-- Modelled from the spec: the destination filename — pattern-substituted
date, optional event, zero-padded sequence, and the original extension
appended unchanged. -/
def render (ev : Option (List Char)) (d8 : List Char) (n : Nat) (ext : List Char) : List Char :=
  d8 ++ sepOf ev ++ seqStr n ++ '.' :: ext

/-- Modelled from the spec: extract the sequence number of a filename matching
the effective naming pattern — eight date digits, the literal separator (with
the run's event), a nonempty digit run, then the `.` before the extension.
Returns `none` for filenames that do not match the pattern. -/
def matchSeq (ev : Option (List Char)) (name : List Char) : Option Nat :=
  let d := name.take 8
  if d.length = 8 ∧ ∀ c ∈ d, c.isDigit = true then
    match stripLead (sepOf ev) (name.drop 8) with
    | some r =>
      let ds := r.takeWhile Char.isDigit
      match r.drop ds.length with
      | '.' :: _ => if ds.isEmpty then none else some (digitsToNat ds)
      | _ => none
    | none => none
  else none

/-- The archive state: the filenames already present in each destination
directory. -/
def Disk := List Char → List (List Char)

/-- The highest sequence number among the files of a directory that match the
run's naming pattern (`0` when none match). -/
def maxSeq (names : List (List Char)) (ev : Option (List Char)) : Nat :=
  (names.filterMap (matchSeq ev)).foldr max 0

/-- Modelled from the spec: the per-(directory, pattern) counter starts at one
plus the highest matching sequence number already on disk. -/
def seedFor (disk : Disk) (ev : Option (List Char)) (dir : List Char) : Nat :=
  maxSeq (disk dir) ev + 1

/-- Modelled from the spec: one `PlacementDecision` — destination directory,
destination filename, and the collision-resolution sequence number. -/
structure Planned where
  dir : List Char
  name : List Char
  seq : Nat
deriving DecidableEq, Repr

def ctrLookup (ctrs : List (List Char × Nat)) (d : List Char) : Option Nat :=
  (ctrs.find? (fun p => p.1 == d)).map (·.2)

/-- Modelled from the spec: the placement loop — for each file in processing
order, take the directory's counter (seeding it from disk on first use),
render the filename, and increment the counter. -/
def planFold (disk : Disk) (ev : Option (List Char)) :
    List SourceItem → List (List Char × Nat) → List Planned
  | [], _ => []
  | f :: fs, ctrs =>
    let d := folderOf f
    let n := (ctrLookup ctrs d).getD (seedFor disk ev d)
    ⟨d, render ev (d8Of f) n f.ext, n⟩ :: planFold disk ev fs ((d, n + 1) :: ctrs)

/-- Modelled from the spec: the full source-to-destination plan of one run,
files processed in capture-time order with the lexical tie-break. -/
def planRun (disk : Disk) (ev : Option (List Char)) (files : List SourceItem) : List Planned :=
  planFold disk ev (sortRun files) []

/-- Modelled from the spec: committing a plan adds every planned file to its
destination directory. -/
def commitDisk (disk : Disk) (plan : List Planned) : Disk :=
  fun d => (plan.filter (fun p => p.dir == d)).map (·.name) ++ disk d

/-- Modelled from the spec: resolution of one configuration field across the
three layers — CLI over declarative file over built-in default, a field
absent at one layer falling through to the next. -/
def resolveField (cli yaml dflt : Option (List Char)) : Option (List Char) :=
  match cli with
  | some v => some v
  | none =>
    match yaml with
    | some v => some v
    | none => dflt

/-- Configuration errors are fatal before any I/O. -/
inductive ConfigError where
  | missingEvent
deriving DecidableEq, Repr

/-- Modelled from the spec: the event accepted for a run — a missing event is
a fatal configuration error exactly when the effective pattern references
`{event}` and trip-mode is not set; in trip-mode the filename pattern falls
back to date-only. -/
def resolveEventCfg (trip patternUsesEvent : Bool) (cli yaml dflt : Option (List Char)) :
    Except ConfigError (Option (List Char)) :=
  match resolveField cli yaml dflt with
  | some e => .ok (some e)
  | none =>
    if trip then .ok none
    else if patternUsesEvent then .error .missingEvent
    else .ok none

/-- Modelled from the spec: the outcome of one orchestrator run — the emitted
plan, the archive state afterwards, and the metadata write-backs performed
(destination filename paired with the event value written). -/
structure RunOutput where
  plan : List Planned
  disk : Disk
  writes : List (List Char × Option (List Char))

/-- Modelled from the spec: the orchestrator — compute the plan; in dry-run
mode emit it without touching the filesystem, in commit mode apply it to the
archive and write the resolved metadata onto every destination copy. -/
def importRun (disk : Disk) (files : List SourceItem) (ev : Option (List Char))
    (dryRun : Bool) : RunOutput :=
  let plan := planRun disk ev files
  if dryRun then ⟨plan, disk, []⟩
  else ⟨plan, commitDisk disk plan, plan.map (fun p => (p.name, ev))⟩

/-- Date fields whose zero-padded renderings have the widths the `{date}`
token assumes (year up to four digits, month and day up to two). -/
def dateBounded (f : SourceItem) : Prop :=
  f.year ≤ 9999 ∧ f.month ≤ 99 ∧ f.day ≤ 99

instance (f : SourceItem) : Decidable (dateBounded f) := by
  unfold dateBounded; infer_instance

/-- The shape `^\d{8}_\d{3}\.<ext>$`: eight date digits, an underscore,
exactly three sequence digits, a dot, then exactly the original extension. -/
def tripShape (ext name : List Char) : Bool :=
  decide ((name.take 8).length = 8) && (name.take 8).all Char.isDigit
    && decide ((name.drop 8).take 1 = ['_'])
    && decide (((name.drop 9).take 3).length = 3) && ((name.drop 9).take 3).all Char.isDigit
    && decide ((name.drop 12).take 1 = ['.'])
    && decide (name.drop 13 = ext)

end Import

/-! ### Checksum ledger.
The `pg-verify` script is likewise not among the library sources, so the
generate/check/update state machine is modelled from the specification. -/

namespace Ledger

/-- Modelled from the spec: one line of a directory's integrity ledger —
filename relative to the directory, and the recorded digest. -/
structure LedgerEntry where
  name : String
  digest : String
deriving DecidableEq, Repr

/-- A directory listing: filenames paired with their current contents
(`σ` is the content type; digests are computed by an abstract `hash`). -/
abbrev Listing (σ : Type) : Type := List (String × σ)

def fileLookup {σ : Type} (files : Listing σ) (n : String) : Option σ :=
  (files.find? (fun p => p.1 == n)).map (·.2)

/-- Modelled from the spec: `update` on one ledgered directory — keep every
existing entry whose file is still present, byte-for-byte and without
recomputation; drop entries whose files no longer exist; append one new entry
per file on disk that is absent from the ledger. -/
def updateDir {σ : Type} (hash : σ → String) (files : Listing σ)
    (ledger : List LedgerEntry) : List LedgerEntry :=
  ledger.filter (fun e => (fileLookup files e.name).isSome)
    ++ (files.filter (fun f => !ledger.any (fun e => e.name == f.1))).map
        (fun f => ⟨f.1, hash f.2⟩)

/-- The digest the (possibly updated) ledger records for a filename. -/
def digestOf (l : List LedgerEntry) (n : String) : Option String :=
  (l.find? (fun e => e.name == n)).map (·.digest)

/-- Classification of one ledger entry by `check`. -/
inductive EntryStatus where
  | verified
  | mismatch
  | missing
deriving DecidableEq, Repr

/-- Modelled from the spec: `check` recomputes a listed file's digest and
compares — a differing digest is a `mismatch`, a listed file no longer
present is `missing`. -/
def checkEntry {σ : Type} (hash : σ → String) (files : Listing σ) (e : LedgerEntry) :
    EntryStatus :=
  match fileLookup files e.name with
  | none => .missing
  | some c => if hash c == e.digest then .verified else .mismatch

/-- Modelled from the spec: the `VerificationResult` — counts of verified,
mismatched and missing files plus the discrepant filenames. -/
structure VerifyResult where
  verified : Nat
  mismatched : Nat
  missing : Nat
  mismatchedNames : List String
  missingNames : List String
deriving DecidableEq, Repr

def emptyResult : VerifyResult := ⟨0, 0, 0, [], []⟩

def combineResult (a b : VerifyResult) : VerifyResult :=
  ⟨a.verified + b.verified, a.mismatched + b.mismatched, a.missing + b.missing,
    a.mismatchedNames ++ b.mismatchedNames, a.missingNames ++ b.missingNames⟩

/-- Running `check` over the entries of one ledger. -/
def checkEntries {σ : Type} (hash : σ → String) (files : Listing σ) :
    List LedgerEntry → VerifyResult
  | [] => emptyResult
  | e :: rest =>
    let r := checkEntries hash files rest
    match checkEntry hash files e with
    | .verified => { r with verified := r.verified + 1 }
    | .mismatch => { r with mismatched := r.mismatched + 1,
                            mismatchedNames := e.name :: r.mismatchedNames }
    | .missing => { r with missing := r.missing + 1,
                           missingNames := e.name :: r.missingNames }

/-- One directory as seen by `pg-verify`: its files and its ledger, when one
exists. -/
structure DirState (σ : Type) where
  files : Listing σ
  ledger : Option (List LedgerEntry)

/-- Modelled from the spec: `check` on one directory — a directory without a
ledger contributes nothing (integrity checking is opt-in). -/
def checkDir {σ : Type} (hash : σ → String) (d : DirState σ) : VerifyResult :=
  match d.ledger with
  | none => emptyResult
  | some l => checkEntries hash d.files l

/-- Modelled from the spec: a full `check` invocation visits every directory
of the scanned tree and accumulates, never stopping early. -/
def checkTree {σ : Type} (hash : σ → String) (ds : List (DirState σ)) : VerifyResult :=
  ds.foldr (fun d acc => combineResult (checkDir hash d) acc) emptyResult

/-- Modelled from the spec: overall success requires zero mismatches and zero
missing files. -/
def resultOk (r : VerifyResult) : Bool := r.mismatched == 0 && r.missing == 0

end Ledger

theorem digitVal_digitChar {d : Nat} (h : d < 10) : digitVal (digitChar d) = d := by
  interval_cases d <;> decide

theorem isDigit_digitChar {d : Nat} (h : d < 10) : (digitChar d).isDigit = true := by
  interval_cases d <;> decide

theorem digitsToNat_append (a b : List Char) :
    digitsToNat (a ++ b) = b.foldl (fun x c => x * 10 + digitVal c) (digitsToNat a) := by
  simp [digitsToNat, List.foldl_append]

theorem natDigitsAux_all_digit : ∀ fuel n, ∀ c ∈ natDigitsAux fuel n, c.isDigit = true := by
  intro fuel
  induction fuel with
  | zero => intro n c hc; simp [natDigitsAux] at hc
  | succ k ih =>
    intro n c hc
    by_cases h : n < 10
    · simp [natDigitsAux, h] at hc
      subst hc; exact isDigit_digitChar h
    · simp [natDigitsAux, h] at hc
      rcases hc with hc | hc
      · exact ih _ _ hc
      · subst hc; exact isDigit_digitChar (Nat.mod_lt _ (by omega))

theorem natDigitsAux_toNat : ∀ fuel n, n < fuel → digitsToNat (natDigitsAux fuel n) = n := by
  intro fuel
  induction fuel with
  | zero => intro n h; omega
  | succ k ih =>
    intro n h
    by_cases h10 : n < 10
    · simp [natDigitsAux, h10, digitsToNat, digitVal_digitChar h10]
    · have hdiv : n / 10 < k := by omega
      simp only [natDigitsAux, h10, if_false]
      rw [digitsToNat_append, ih _ hdiv]
      simp [digitVal_digitChar (Nat.mod_lt n (show 0 < 10 by omega))]
      omega

theorem digitsToNat_natToDigits (n : Nat) : digitsToNat (natToDigits n) = n :=
  natDigitsAux_toNat _ _ (Nat.lt_succ_self n)

theorem natToDigits_all_digit (n : Nat) : ∀ c ∈ natToDigits n, c.isDigit = true :=
  natDigitsAux_all_digit _ _

theorem natDigitsAux_ne_nil : ∀ fuel n, n < fuel → natDigitsAux fuel n ≠ [] := by
  intro fuel
  induction fuel with
  | zero => intro n h; omega
  | succ k _ =>
    intro n _
    by_cases h10 : n < 10 <;> simp [natDigitsAux, h10]

theorem natDigitsAux_length_le : ∀ fuel n k, n < fuel → n < 10 ^ k → 0 < k →
    (natDigitsAux fuel n).length ≤ k := by
  intro fuel
  induction fuel with
  | zero => intro n k h; omega
  | succ f ih =>
    intro n k hf hk hk0
    by_cases h10 : n < 10
    · simp [natDigitsAux, h10]; omega
    · have hdiv : n / 10 < f := by omega
      have hk1 : 0 < k - 1 := by
        by_contra hcon
        have hk1' : k = 1 := by omega
        subst hk1'
        simp [pow_one] at hk
        omega
      have hpow : n / 10 < 10 ^ (k - 1) := by
        have : n < 10 * 10 ^ (k - 1) := by
          have : 10 ^ k = 10 * 10 ^ (k - 1) := by
            conv_lhs => rw [show k = 1 + (k - 1) by omega]
            rw [pow_add, pow_one]
          omega
        omega
      have := ih (n / 10) (k - 1) hdiv hpow hk1
      simp only [natDigitsAux, h10, if_false, List.length_append, List.length_singleton]
      omega

theorem natToDigits_length_le {n k : Nat} (hk : 0 < k) (h : n < 10 ^ k) :
    (natToDigits n).length ≤ k :=
  natDigitsAux_length_le _ _ _ (Nat.lt_succ_self n) h hk

theorem padLeft_length (w : Nat) (l : List Char) :
    (padLeft w l).length = max w l.length := by
  simp [padLeft]; omega

theorem padLeft_all_digit (w : Nat) (l : List Char) (h : ∀ c ∈ l, c.isDigit = true) :
    ∀ c ∈ padLeft w l, c.isDigit = true := by
  intro c hc
  simp [padLeft] at hc
  rcases hc with ⟨-, rfl⟩ | hc
  · decide
  · exact h _ hc

theorem digitsToNat_padLeft (w : Nat) (l : List Char) :
    digitsToNat (padLeft w l) = digitsToNat l := by
  simp only [padLeft]
  induction w - l.length with
  | zero => simp
  | succ k ih =>
    rw [List.replicate_succ, List.cons_append]
    simpa [digitsToNat, digitVal] using ih

theorem stripLead_append (p r : List Char) : stripLead p (p ++ r) = some r := by
  induction p with
  | nil => rfl
  | cons a ps ih => simp [stripLead, ih]

theorem containsSeg_of_stripLead {seg l : List Char} (h : (stripLead seg l).isSome = true) :
    containsSeg seg l = true := by
  cases l with
  | nil =>
    cases seg with
    | nil => rfl
    | cons a ps => simp [stripLead] at h
  | cons c t => simp [containsSeg, h]

theorem containsSeg_append (seg a b : List Char) :
    containsSeg seg (a ++ seg ++ b) = true := by
  induction a with
  | nil =>
    simp only [List.nil_append]
    exact containsSeg_of_stripLead (by rw [stripLead_append]; rfl)
  | cons x xs ih =>
    simp only [List.cons_append, containsSeg, Bool.or_eq_true]
    right
    exact ih

theorem take_append_of_length {l₁ l₂ : List Char} {n : Nat} (h : l₁.length = n) :
    (l₁ ++ l₂).take n = l₁ := by
  subst h
  simp [List.take_append]

theorem drop_append_of_length {l₁ l₂ : List Char} {n : Nat} (h : l₁.length = n) :
    (l₁ ++ l₂).drop n = l₂ := by
  subst h
  simp [List.drop_append]

theorem takeWhile_append_not {p : Char → Bool} {a : List Char} {b : Char} (r : List Char)
    (ha : ∀ c ∈ a, p c = true) (hb : p b = false) :
    (a ++ b :: r).takeWhile p = a := by
  induction a with
  | nil => simp [List.takeWhile, hb]
  | cons x xs ih =>
    have hx : p x = true := ha x (by simp)
    have ih' := ih (fun c hc => ha c (by simp [hc]))
    simp [List.takeWhile, hx, ih']

theorem le_foldr_max {a : Nat} : ∀ {l : List Nat}, a ∈ l → a ≤ l.foldr max 0 := by
  intro l
  induction l with
  | nil => intro h; simp at h
  | cons x xs ih =>
    intro h
    rcases List.mem_cons.mp h with h | h
    · subst h; exact Nat.le_max_left _ _
    · exact le_trans (ih h) (Nat.le_max_right _ _)

namespace Import

theorem mem_insertBy {α : Type} {le : α → α → Bool} {a x : α} :
    ∀ {l : List α}, x ∈ insertBy le a l ↔ x = a ∨ x ∈ l := by
  intro l
  induction l with
  | nil => simp [insertBy]
  | cons b bs ih =>
    by_cases h : le a b = true
    · simp [insertBy, h]
    · simp only [insertBy, h, Bool.false_eq_true, if_false, List.mem_cons, ih]
      tauto

theorem mem_sortBy {α : Type} {le : α → α → Bool} {x : α} :
    ∀ {l : List α}, x ∈ sortBy le l ↔ x ∈ l := by
  intro l
  induction l with
  | nil => simp [sortBy]
  | cons b bs ih =>
    simp only [sortBy, List.foldr_cons] at *
    rw [mem_insertBy, ih, List.mem_cons]

theorem mem_sortRun {f : SourceItem} {files : List SourceItem} :
    f ∈ sortRun files ↔ f ∈ files := mem_sortBy

theorem seqStr_all_digit (n : Nat) : ∀ c ∈ seqStr n, c.isDigit = true :=
  padLeft_all_digit _ _ (natToDigits_all_digit n)

theorem digitsToNat_seqStr (n : Nat) : digitsToNat (seqStr n) = n := by
  rw [seqStr, digitsToNat_padLeft, digitsToNat_natToDigits]

theorem seqStr_length_pos (n : Nat) : 0 < (seqStr n).length := by
  rw [seqStr, padLeft_length]
  omega

theorem seqStr_isEmpty (n : Nat) : (seqStr n).isEmpty = false := by
  have := seqStr_length_pos n
  cases h : seqStr n with
  | nil => rw [h] at this; simp at this
  | cons c t => rfl

theorem seqStr_length_of_le {n : Nat} (h : n ≤ 999) : (seqStr n).length = 3 := by
  have hlen : (natToDigits n).length ≤ 3 :=
    natToDigits_length_le (by omega) (by norm_num; omega)
  rw [seqStr, padLeft_length]
  omega

theorem d8Of_length {f : SourceItem} (h : dateBounded f) : (d8Of f).length = 8 := by
  obtain ⟨hy, hm, hd⟩ := h
  have h1 : (natToDigits f.year).length ≤ 4 :=
    natToDigits_length_le (by omega) (by norm_num; omega)
  have h2 : (natToDigits f.month).length ≤ 2 :=
    natToDigits_length_le (by omega) (by norm_num; omega)
  have h3 : (natToDigits f.day).length ≤ 2 :=
    natToDigits_length_le (by omega) (by norm_num; omega)
  simp [d8Of, padLeft_length]
  omega

theorem d8Of_all_digit (f : SourceItem) : ∀ c ∈ d8Of f, c.isDigit = true := by
  intro c hc
  simp only [d8Of, List.mem_append] at hc
  rcases hc with (hc | hc) | hc
  · exact padLeft_all_digit _ _ (natToDigits_all_digit _) _ hc
  · exact padLeft_all_digit _ _ (natToDigits_all_digit _) _ hc
  · exact padLeft_all_digit _ _ (natToDigits_all_digit _) _ hc

theorem matchSeq_render (ev : Option (List Char)) {d8 : List Char} (n : Nat) (ext : List Char)
    (h8 : d8.length = 8) (hd : ∀ c ∈ d8, c.isDigit = true) :
    matchSeq ev (render ev d8 n ext) = some n := by
  have htake : (render ev d8 n ext).take 8 = d8 := by
    rw [render, List.append_assoc, List.append_assoc] at *
    exact take_append_of_length h8
  have hdrop : (render ev d8 n ext).drop 8 = sepOf ev ++ (seqStr n ++ '.' :: ext) := by
    rw [render, List.append_assoc, List.append_assoc] at *
    exact drop_append_of_length h8
  rw [matchSeq]
  simp only [htake, hdrop]
  rw [if_pos ⟨h8, hd⟩, stripLead_append]
  have hTW : (seqStr n ++ '.' :: ext).takeWhile Char.isDigit = seqStr n :=
    takeWhile_append_not ext (seqStr_all_digit n) (by decide)
  simp only [hTW, drop_append_of_length rfl, seqStr_isEmpty, Bool.false_eq_true, if_false,
    digitsToNat_seqStr]

theorem le_maxSeq {ev : Option (List Char)} {names : List (List Char)} {nm : List Char} {s : Nat}
    (hm : matchSeq ev nm = some s) (hmem : nm ∈ names) : s ≤ maxSeq names ev := by
  apply le_foldr_max
  exact List.mem_filterMap.mpr ⟨nm, hmem, hm⟩

theorem ctrLookup_cons (d' : List Char) (v : Nat) (ctrs : List (List Char × Nat))
    (d : List Char) :
    ctrLookup ((d', v) :: ctrs) d = if d' = d then some v else ctrLookup ctrs d := by
  by_cases h : d' = d
  · simp [ctrLookup, List.find?, h]
  · simp only [ctrLookup, List.find?]
    rw [show ((d', v).1 == d) = false by simpa using h]
    simp [h]

theorem planFold_spec (disk : Disk) (ev : Option (List Char)) :
    ∀ (fs : List SourceItem) (ctrs : List (List Char × Nat)),
      (∀ d c, ctrLookup ctrs d = some c → seedFor disk ev d ≤ c) →
      ∀ p ∈ planFold disk ev fs ctrs,
        (∃ f ∈ fs, p.dir = folderOf f ∧ p.name = render ev (d8Of f) p.seq f.ext)
          ∧ seedFor disk ev p.dir ≤ p.seq := by
  intro fs
  induction fs with
  | nil => intro ctrs _ p hp; simp [planFold] at hp
  | cons f rest ih =>
    intro ctrs hinv p hp
    simp only [planFold, List.mem_cons] at hp
    rcases hp with hp | hp
    · subst hp
      refine ⟨⟨f, by simp, rfl, rfl⟩, ?_⟩
      cases hl : ctrLookup ctrs (folderOf f) with
      | none => simp [hl]
      | some c => simpa [hl] using hinv _ _ hl
    · have hinv' : ∀ d c,
          ctrLookup ((folderOf f, (ctrLookup ctrs (folderOf f)).getD
            (seedFor disk ev (folderOf f)) + 1) :: ctrs) d = some c →
          seedFor disk ev d ≤ c := by
        intro d c hc
        rw [ctrLookup_cons] at hc
        by_cases hd : folderOf f = d
        · rw [if_pos hd] at hc
          cases hc
          subst hd
          cases hl : ctrLookup ctrs (folderOf f) with
          | none => simp only [Option.getD_none]; omega
          | some c' =>
            have := hinv _ _ hl
            simp only [Option.getD_some]
            omega
        · rw [if_neg hd] at hc
          exact hinv _ _ hc
      obtain ⟨⟨g, hg, h1, h2⟩, h3⟩ := ih _ hinv' p hp
      exact ⟨⟨g, by simp [hg], h1, h2⟩, h3⟩

theorem planRun_spec (disk : Disk) (ev : Option (List Char)) (files : List SourceItem)
    (p : Planned) (hp : p ∈ planRun disk ev files) :
    (∃ f ∈ files, p.dir = folderOf f ∧ p.name = render ev (d8Of f) p.seq f.ext)
      ∧ maxSeq (disk p.dir) ev < p.seq := by
  have h := planFold_spec disk ev (sortRun files) [] (by intro d c hc; simp [ctrLookup] at hc) p hp
  obtain ⟨⟨f, hf, h1, h2⟩, h3⟩ := h
  refine ⟨⟨f, mem_sortRun.mp hf, h1, h2⟩, ?_⟩
  simpa [seedFor] using h3

theorem tripShape_render {d8 : List Char} (n : Nat) (ext : List Char)
    (h8 : d8.length = 8) (hdig : ∀ c ∈ d8, c.isDigit = true) (hn : n ≤ 999) :
    tripShape ext (render none d8 n ext) = true := by
  have hs3 : (seqStr n).length = 3 := seqStr_length_of_le hn
  have e1 : render none d8 n ext = d8 ++ ('_' :: (seqStr n ++ '.' :: ext)) := by
    simp [render, sepOf]
  have e2 : render none d8 n ext = (d8 ++ ['_']) ++ (seqStr n ++ '.' :: ext) := by
    rw [e1]; simp
  have e3 : render none d8 n ext = ((d8 ++ ['_']) ++ seqStr n) ++ '.' :: ext := by
    rw [e2]; simp
  have e4 : render none d8 n ext = (((d8 ++ ['_']) ++ seqStr n) ++ ['.']) ++ ext := by
    rw [e3]; simp
  have t8 : (render none d8 n ext).take 8 = d8 := by
    rw [e1]; exact take_append_of_length h8
  have h8' : (render none d8 n ext).drop 8 = '_' :: (seqStr n ++ '.' :: ext) := by
    rw [e1]; exact drop_append_of_length h8
  have h9 : (render none d8 n ext).drop 9 = seqStr n ++ '.' :: ext := by
    rw [e2]; exact drop_append_of_length (by simp [h8])
  have h12 : (render none d8 n ext).drop 12 = '.' :: ext := by
    rw [e3]; exact drop_append_of_length (by simp [h8, hs3])
  have h13 : (render none d8 n ext).drop 13 = ext := by
    rw [e4]; exact drop_append_of_length (by simp [h8, hs3])
  have t3 : ((render none d8 n ext).drop 9).take 3 = seqStr n := by
    rw [h9]; exact take_append_of_length hs3
  rw [tripShape, t8, h8', h12, h13, t3]
  simp [h8, hs3, List.all_eq_true]
  exact ⟨fun c hc => hdig c hc, fun c hc => seqStr_all_digit n c hc⟩

end Import

open Import in
/-- C1: for two consecutive import runs of the same source tree into the
same archive, no file committed by the first run is overwritten by the second:
every file planned by the second run is absent from its destination directory
(which already holds the first run's output) and carries a sequence number
strictly greater than the highest matching sequence number present there,
because the per-(directory, pattern) counter is seeded at one plus that
maximum and increments per file in capture-time order. -/
theorem C1_no_overwrite (disk : Disk) (files : List SourceItem) (ev : Option (List Char))
    (hb : ∀ f ∈ files, dateBounded f) (p : Planned)
    (hp : p ∈ planRun (commitDisk disk (planRun disk ev files)) ev files) :
    p.name ∉ commitDisk disk (planRun disk ev files) p.dir
      ∧ maxSeq (commitDisk disk (planRun disk ev files) p.dir) ev < p.seq := by
  obtain ⟨⟨f, hf, hdir, hname⟩, hlt⟩ :=
    planRun_spec (commitDisk disk (planRun disk ev files)) ev files p hp
  have hmatch : matchSeq ev p.name = some p.seq := by
    rw [hname]
    exact matchSeq_render ev p.seq f.ext (d8Of_length (hb f hf)) (d8Of_all_digit f)
  refine ⟨?_, hlt⟩
  intro hmem
  have := le_maxSeq hmatch hmem
  omega

open Import in
/-- Witness for C1 at a concrete one-file source, empty starting archive and
event `E`: the second run plans `20260124_E_002.jpg`, which is not among the
committed files and exceeds the committed maximum sequence number 1. -/
theorem C1_no_overwrite_witness :
    "20260124_E_002.jpg".data ∉
        commitDisk (fun _ => [])
          (planRun (fun _ => []) (some "E".data) [⟨"a.jpg".data, 0, 2026, 1, 24, "jpg".data⟩])
          "2026-01-24".data
      ∧ maxSeq
          (commitDisk (fun _ => [])
            (planRun (fun _ => []) (some "E".data) [⟨"a.jpg".data, 0, 2026, 1, 24, "jpg".data⟩])
            "2026-01-24".data) (some "E".data) < 2 :=
  C1_no_overwrite (fun _ => []) [⟨"a.jpg".data, 0, 2026, 1, 24, "jpg".data⟩] (some "E".data)
    (by decide) ⟨"2026-01-24".data, "20260124_E_002.jpg".data, 2⟩ (by decide)

open Import in
/-- C2: for a fixed source tree and starting archive state, a dry run
touches no file of the archive and emits exactly the plan (same destinations,
same order) that a subsequent commit run realizes. -/
theorem C2_dry_run_plan (disk : Disk) (files : List SourceItem) (ev : Option (List Char)) :
    (importRun disk files ev true).disk = disk
      ∧ (importRun disk files ev true).writes = []
      ∧ (importRun disk files ev true).plan = (importRun disk files ev false).plan :=
  ⟨rfl, rfl, rfl⟩

open Import in
/-- C5: configuration precedence — a CLI-supplied field always wins over
the declarative file, the declarative file wins over the built-in default,
every filename derived in such a run embeds the CLI event, every metadata
write-back carries the CLI event, and in the concrete `YAMLEvent`/`CLIEvent`
scenario every imported filename contains `CLIEvent` and never `YAMLEvent`. -/
theorem C5_config_precedence (cliE : List Char) (yaml dflt : Option (List Char))
    (disk : Disk) (files : List SourceItem) :
    resolveField (some cliE) yaml dflt = some cliE
      ∧ (∀ y d, resolveField none (some y) d = some y)
      ∧ (∀ p ∈ planRun disk (resolveField (some cliE) yaml dflt) files,
          containsSeg cliE p.name = true)
      ∧ (∀ w ∈ (importRun disk files (resolveField (some cliE) yaml dflt) false).writes,
          w.2 = some cliE)
      ∧ (∀ p ∈ planRun (fun _ => [])
            (resolveField (some "CLIEvent".data) (some "YAMLEvent".data) none)
            [⟨"a.jpg".data, 0, 2026, 1, 24, "jpg".data⟩],
          containsSeg "CLIEvent".data p.name = true
            ∧ containsSeg "YAMLEvent".data p.name = false) := by
  refine ⟨rfl, fun y d => rfl, ?_, ?_, by decide⟩
  · intro p hp
    obtain ⟨⟨f, _, _, hname⟩, _⟩ := planRun_spec disk (some cliE) files p hp
    rw [hname]
    have : render (some cliE) (d8Of f) p.seq f.ext
        = (d8Of f ++ ['_']) ++ cliE ++ ('_' :: (seqStr p.seq ++ '.' :: f.ext)) := by
      simp [render, sepOf]
    rw [this]
    exact containsSeg_append cliE (d8Of f ++ ['_']) ('_' :: (seqStr p.seq ++ '.' :: f.ext))
  · intro w hw
    simp only [importRun, Bool.false_eq_true, if_false, planRun] at hw
    obtain ⟨p, _, hp⟩ := List.mem_map.mp hw
    rw [← hp]
    rfl

open Import in
/-- Witness for C5 in the concrete scenario: the single planned filename
contains `CLIEvent` and not `YAMLEvent`. -/
theorem C5_config_precedence_witness :
    containsSeg "CLIEvent".data "20260124_CLIEvent_001.jpg".data = true
      ∧ containsSeg "YAMLEvent".data "20260124_CLIEvent_001.jpg".data = false :=
  (C5_config_precedence "CLIEvent".data (some "YAMLEvent".data) none (fun _ => [])
      [⟨"a.jpg".data, 0, 2026, 1, 24, "jpg".data⟩]).2.2.2.2
    ⟨"2026-01-24".data, "20260124_CLIEvent_001.jpg".data, 1⟩ (by decide)

open Import in
/-- C8, counterexample: the claim fails as universally stated — the
`{seq:03d}` pad is a minimum width and the counter is seeded from disk, so a
trip-mode run without an event against a directory already holding sequence
number 999 produces `20260124_1000.jpg`, which does not match
`^\d{8}_\d{3}\.<ext>$`. -/
theorem C8_counterexample :
    planRun (fun _ => ["20260124_999.jpg".data]) none
        [⟨"a.jpg".data, 0, 2026, 1, 24, "jpg".data⟩]
      = [⟨"2026-01-24".data, "20260124_1000.jpg".data, 1000⟩]
      ∧ tripShape "jpg".data "20260124_1000.jpg".data = false := by decide

open Import in
/-- C8, amended: in trip-mode with no event resolved from any layer,
every planned filename whose sequence number does not exceed 999 matches
`^\d{8}_\d{3}\.<ext>$` exactly, while the same missing-event condition outside
trip-mode with an `{event}`-referencing pattern is a fatal configuration
error. -/
theorem C8_trip_fallback (disk : Disk) (files : List SourceItem)
    (hb : ∀ f ∈ files, dateBounded f) (p : Planned)
    (hp : p ∈ planRun disk none files) (hseq : p.seq ≤ 999) :
    (∃ f ∈ files, p.name = render none (d8Of f) p.seq f.ext ∧ tripShape f.ext p.name = true)
      ∧ (∀ cli yaml dflt, resolveField cli yaml dflt = none →
          resolveEventCfg false true cli yaml dflt = .error .missingEvent
            ∧ resolveEventCfg true true cli yaml dflt = .ok none) := by
  obtain ⟨⟨f, hf, _, hname⟩, _⟩ := planRun_spec disk none files p hp
  refine ⟨⟨f, hf, hname, ?_⟩, ?_⟩
  · rw [hname]
    exact tripShape_render p.seq f.ext (d8Of_length (hb f hf)) (d8Of_all_digit f) hseq
  · intro cli yaml dflt hres
    simp [resolveEventCfg, hres]

open Import in
/-- Witness for the amended C8: a concrete trip-mode run yields
`20260124_001.jpg`, matching the date-only shape, and a fully-absent event is
a configuration error outside trip-mode. -/
theorem C8_trip_fallback_witness :
    (∃ f ∈ [(⟨"a.jpg".data, 0, 2026, 1, 24, "jpg".data⟩ : SourceItem)],
        "20260124_001.jpg".data = render none (d8Of f) 1 f.ext
          ∧ tripShape f.ext "20260124_001.jpg".data = true)
      ∧ (∀ cli yaml dflt, resolveField cli yaml dflt = none →
          resolveEventCfg false true cli yaml dflt = .error .missingEvent
            ∧ resolveEventCfg true true cli yaml dflt = .ok none) :=
  C8_trip_fallback (fun _ => []) [⟨"a.jpg".data, 0, 2026, 1, 24, "jpg".data⟩] (by decide)
    ⟨"2026-01-24".data, "20260124_001.jpg".data, 1⟩ (by decide) (by decide)

namespace Ledger

theorem find_entry_of_nodup : ∀ (l : List LedgerEntry) (e : LedgerEntry),
    (l.map (·.name)).Nodup → e ∈ l → l.find? (fun x => x.name == e.name) = some e := by
  intro l
  induction l with
  | nil => intro e _ he; simp at he
  | cons a t ih =>
    intro e hn he
    rw [List.map_cons, List.nodup_cons] at hn
    by_cases h : a.name = e.name
    · have hae : a = e := by
        rcases List.mem_cons.mp he with he | he
        · exact he.symm
        · exact absurd (h ▸ List.mem_map_of_mem (·.name) he) hn.1
      rw [List.find?]
      rw [show (a.name == e.name) = true by simpa using h, hae]
    · rw [List.find?]
      rw [show (a.name == e.name) = false by simpa using h]
      have het : e ∈ t := by
        rcases List.mem_cons.mp he with he | he
        · exact absurd (he ▸ rfl) h
        · exact he
      exact ih e hn.2 het

theorem updateDir_names_nodup {σ : Type} (hash : σ → String) (files : Listing σ)
    (ledger : List LedgerEntry) (hln : (ledger.map (·.name)).Nodup)
    (hfn : (files.map (·.1)).Nodup) :
    ((updateDir hash files ledger).map (·.name)).Nodup := by
  rw [updateDir, List.map_append, List.nodup_append]
  refine ⟨?_, ?_, ?_⟩
  · exact hln.sublist (List.Sublist.map _ (List.filter_sublist _))
  · rw [List.map_map]
    have : ((fun e => e.name) ∘ fun f => (⟨f.1, hash f.2⟩ : LedgerEntry))
        = fun f : String × σ => f.1 := rfl
    rw [this]
    exact hfn.sublist (List.Sublist.map _ (List.filter_sublist _))
  · intro x hx1 hx2
    rw [List.map_map] at hx2
    obtain ⟨e, he, hex⟩ := List.mem_map.mp hx1
    obtain ⟨f, hf, hfx⟩ := List.mem_map.mp hx2
    rw [List.mem_filter] at he hf
    have hnot := hf.2
    rw [Bool.not_eq_eq_eq_not, Bool.not_true, List.any_eq_false] at hnot
    have := hnot e he.1
    simp only [Function.comp] at hfx
    have hef : e.name = f.1 := by rw [hex, hfx]
    simp [hef] at this

/-- C3: the ledger `update` operation preserves the digest of every entry
whose file is still present byte-for-byte (even when the recorded digest no
longer matches the file, so a mismatch is never silently fixed); its only
effects are dropping entries whose files are gone and appending one fresh
entry per file absent from the ledger. -/
theorem C3_update_frame {σ : Type} (hash : σ → String) (files : Listing σ)
    (ledger : List LedgerEntry) (hln : (ledger.map (·.name)).Nodup)
    (hfn : (files.map (·.1)).Nodup) :
    (∀ e ∈ ledger, (fileLookup files e.name).isSome = true →
        digestOf (updateDir hash files ledger) e.name = some e.digest)
      ∧ (∀ e ∈ ledger, fileLookup files e.name = none →
          ∀ e' ∈ updateDir hash files ledger, e'.name ≠ e.name)
      ∧ (∀ f ∈ files, (∀ e ∈ ledger, e.name ≠ f.1) →
          (⟨f.1, hash f.2⟩ : LedgerEntry) ∈ updateDir hash files ledger)
      ∧ (∀ e ∈ updateDir hash files ledger,
          (e ∈ ledger ∧ (fileLookup files e.name).isSome = true)
            ∨ ((∀ e' ∈ ledger, e'.name ≠ e.name) ∧ ∃ f ∈ files, e.name = f.1
                ∧ e.digest = hash f.2)) := by
  refine ⟨?_, ?_, ?_, ?_⟩
  · intro e he hsome
    have hmem : e ∈ updateDir hash files ledger := by
      rw [updateDir]
      exact List.mem_append_left _ (List.mem_filter.mpr ⟨he, hsome⟩)
    rw [digestOf, find_entry_of_nodup _ e (updateDir_names_nodup hash files ledger hln hfn) hmem]
    rfl
  · intro e he hnone e' he' hne
    have hfind : files.find? (fun p => p.1 == e.name) = none := by
      rw [fileLookup] at hnone
      exact Option.map_eq_none'.mp hnone
    rw [updateDir, List.mem_append] at he'
    rcases he' with he' | he'
    · rw [List.mem_filter] at he'
      rw [hne] at he'
      rw [hnone] at he'
      simp at he'
    · obtain ⟨f, hf, hfe⟩ := List.mem_map.mp he'
      rw [List.mem_filter] at hf
      have hf1 : f.1 = e.name := by
        have : e'.name = f.1 := by rw [← hfe]
        rw [← this, hne]
      have : (files.find? (fun p => p.1 == e.name)).isSome :=
        List.find?_isSome.mpr ⟨f, hf.1, by simp [hf1]⟩
      rw [hfind] at this
      simp at this
  · intro f hf hfresh
    rw [updateDir, List.mem_append]
    right
    refine List.mem_map.mpr ⟨f, List.mem_filter.mpr ⟨hf, ?_⟩, rfl⟩
    rw [Bool.not_eq_eq_eq_not, Bool.not_true, List.any_eq_false]
    intro e he
    simpa using hfresh e he
  · intro e he
    rw [updateDir, List.mem_append] at he
    rcases he with he | he
    · rw [List.mem_filter] at he
      exact Or.inl ⟨he.1, he.2⟩
    · obtain ⟨f, hf, hfe⟩ := List.mem_map.mp he
      rw [List.mem_filter] at hf
      subst hfe
      refine Or.inr ⟨?_, f, hf.1, rfl, rfl⟩
      intro e' he' hne
      have hnot := hf.2
      rw [Bool.not_eq_eq_eq_not, Bool.not_true, List.any_eq_false] at hnot
      have := hnot e' he'
      simp only [] at hne
      simp [hne] at this

/-- Witness for C3: with files `a.jpg`, `b.jpg` on disk and a ledger whose
only entry records the stale digest `OLD` for `a.jpg`, `update` keeps `OLD`
byte-for-byte (no silent fix) and appends a fresh entry for `b.jpg`. -/
theorem C3_update_frame_witness :
    digestOf (updateDir (fun _ : Nat => "H") [("a.jpg", 1), ("b.jpg", 2)]
        [⟨"a.jpg", "OLD"⟩]) "a.jpg" = some "OLD"
      ∧ (⟨"b.jpg", "H"⟩ : LedgerEntry) ∈
          updateDir (fun _ : Nat => "H") [("a.jpg", 1), ("b.jpg", 2)] [⟨"a.jpg", "OLD"⟩] :=
  ⟨(C3_update_frame (fun _ : Nat => "H") [("a.jpg", 1), ("b.jpg", 2)] [⟨"a.jpg", "OLD"⟩]
      (by decide) (by decide)).1 ⟨"a.jpg", "OLD"⟩ (by decide) (by decide),
   (C3_update_frame (fun _ : Nat => "H") [("a.jpg", 1), ("b.jpg", 2)] [⟨"a.jpg", "OLD"⟩]
      (by decide) (by decide)).2.2.1 ("b.jpg", 2) (by decide) (by decide)⟩

theorem fileLookup_cons_ne {σ : Type} (files : Listing σ) (n m : String) (c : σ)
    (h : m ≠ n) : fileLookup ((n, c) :: files) m = fileLookup files m := by
  rw [fileLookup, fileLookup, List.find?]
  rw [show ((n, c).1 == m) = false by simpa using fun hh => h hh.symm]

theorem checkEntry_cons {σ : Type} (hash : σ → String) (files : Listing σ) (n : String)
    (c : σ) (e : LedgerEntry) (h : e.name ≠ n) :
    checkEntry hash ((n, c) :: files) e = checkEntry hash files e := by
  rw [checkEntry, checkEntry, fileLookup_cons_ne files n e.name c h]

theorem checkEntries_cons_file {σ : Type} (hash : σ → String) (files : Listing σ)
    (n : String) (c : σ) :
    ∀ l : List LedgerEntry, (∀ e ∈ l, e.name ≠ n) →
      checkEntries hash ((n, c) :: files) l = checkEntries hash files l := by
  intro l
  induction l with
  | nil => intro _; rfl
  | cons e rest ih =>
    intro h
    rw [checkEntries, checkEntries, ih (fun x hx => h x (by simp [hx])),
      checkEntry_cons hash files n c e (h e (by simp))]

theorem combineResult_empty_left (r : VerifyResult) : combineResult emptyResult r = r := by
  cases r
  simp [combineResult, emptyResult]

theorem resultOk_combine (a b : VerifyResult) :
    resultOk (combineResult a b) = (resultOk a && resultOk b) := by
  rw [Bool.eq_iff_iff]
  simp only [resultOk, combineResult, Bool.and_eq_true, beq_iff_eq, Nat.add_eq_zero]
  tauto

theorem checkTree_cons {σ : Type} (hash : σ → String) (d : DirState σ)
    (ds : List (DirState σ)) :
    checkTree hash (d :: ds) = combineResult (checkDir hash d) (checkTree hash ds) := rfl

theorem resultOk_empty : resultOk emptyResult = true := rfl

/-- C4: `check` classifies every ledger entry exactly — recomputed digest
compared against the recorded one for present files, `missing` for vanished
files; on-disk files absent from the ledger alter nothing; a tree with zero
ledgers checks successfully; and any single mismatch or missing file makes the
whole invocation fail while the scan still visits every directory, whose
discrepancies all appear in the aggregate report. -/
theorem C4_check_classification {σ : Type} (hash : σ → String) :
    (∀ (files : Listing σ) (e : LedgerEntry) (c : σ), fileLookup files e.name = some c →
        checkEntry hash files e = (if hash c == e.digest then .verified else .mismatch))
      ∧ (∀ (files : Listing σ) (e : LedgerEntry), fileLookup files e.name = none →
          checkEntry hash files e = .missing)
      ∧ (∀ (files : Listing σ) (l : List LedgerEntry) (n : String) (c : σ),
          (∀ e ∈ l, e.name ≠ n) →
          checkEntries hash ((n, c) :: files) l = checkEntries hash files l)
      ∧ (∀ ds : List (DirState σ), (∀ d ∈ ds, d.ledger = none) →
          checkTree hash ds = emptyResult ∧ resultOk (checkTree hash ds) = true)
      ∧ (∀ ds : List (DirState σ),
          resultOk (checkTree hash ds) = false ↔ ∃ d ∈ ds, resultOk (checkDir hash d) = false)
      ∧ (∀ (ds : List (DirState σ)) (d : DirState σ), d ∈ ds →
          (∀ x ∈ (checkDir hash d).mismatchedNames, x ∈ (checkTree hash ds).mismatchedNames)
            ∧ (∀ x ∈ (checkDir hash d).missingNames, x ∈ (checkTree hash ds).missingNames)) := by
  refine ⟨?_, ?_, ?_, ?_, ?_, ?_⟩
  · intro files e c hc
    rw [checkEntry, hc]
  · intro files e hc
    rw [checkEntry, hc]
  · intro files l n c h
    exact checkEntries_cons_file hash files n c l h
  · intro ds h
    have hempty : checkTree hash ds = emptyResult := by
      induction ds with
      | nil => rfl
      | cons d rest ih =>
        rw [checkTree_cons, checkDir, h d (by simp), ih (fun x hx => h x (by simp [hx])),
          combineResult_empty_left]
    exact ⟨hempty, by rw [hempty]; rfl⟩
  · intro ds
    induction ds with
    | nil => simp [checkTree, resultOk, emptyResult]
    | cons d rest ih =>
      rw [checkTree_cons, resultOk_combine]
      constructor
      · intro h
        rcases Bool.and_eq_false_iff.mp h with h | h
        · exact ⟨d, by simp, h⟩
        · obtain ⟨d', hd', hok⟩ := ih.mp h
          exact ⟨d', by simp [hd'], hok⟩
      · rintro ⟨d', hd', hok⟩
        rcases List.mem_cons.mp hd' with hd' | hd'
        · subst hd'
          rw [hok]
          rfl
        · rw [ih.mpr ⟨d', hd', hok⟩]
          simp
  · intro ds d hd
    induction ds with
    | nil => simp at hd
    | cons a rest ih =>
      rw [checkTree_cons]
      rcases List.mem_cons.mp hd with hd | hd
      · subst hd
        exact ⟨fun x hx => by simp [combineResult, hx],
               fun x hx => by simp [combineResult, hx]⟩
      · obtain ⟨h1, h2⟩ := ih hd
        exact ⟨fun x hx => by simp [combineResult]; right; exact h1 x hx,
               fun x hx => by simp [combineResult]; right; exact h2 x hx⟩

/-- Witness for C4: an entry for a vanished file is classified `missing`, and
a one-directory tree whose ledger records a wrong digest fails overall. -/
theorem C4_check_classification_witness :
    checkEntry (fun _ : Nat => "H") ([] : Listing Nat) ⟨"x", "d"⟩ = EntryStatus.missing
      ∧ (resultOk (checkTree (fun _ : Nat => "H")
            [⟨[("a.jpg", 1)], some [⟨"a.jpg", "OLD"⟩]⟩]) = false
          ↔ ∃ d ∈ [(⟨[("a.jpg", 1)], some [⟨"a.jpg", "OLD"⟩]⟩ : DirState Nat)],
              resultOk (checkDir (fun _ : Nat => "H") d) = false) :=
  ⟨(C4_check_classification (fun _ : Nat => "H")).2.1 [] ⟨"x", "d"⟩ rfl,
   (C4_check_classification (fun _ : Nat => "H")).2.2.2.2.1
      [⟨[("a.jpg", 1)], some [⟨"a.jpg", "OLD"⟩]⟩]⟩

end Ledger

namespace ExifTool

theorem val_abs (d : PyFloat) : d.abs.val = |d.val| := by
  rcases d with ⟨neg, ip, fp, fplen, e⟩
  have hbase : (0 : ℚ) ≤ ((ip : ℚ) + (fp : ℚ) / (10 : ℚ) ^ fplen) * (10 : ℚ) ^ e := by
    positivity
  cases neg <;>
    simp [PyFloat.val, PyFloat.abs, abs_mul, abs_of_nonneg hbase]

theorem nonneg_iff (d : PyFloat) : d.nonneg = true ↔ 0 ≤ d.val := by
  rcases d with ⟨neg, ip, fp, fplen, e⟩
  have hpow : (0 : ℚ) < (10 : ℚ) ^ e := by positivity
  cases neg
  · simp only [PyFloat.nonneg, PyFloat.val, Bool.not_false, Bool.true_or, true_iff]
    rw [if_neg (by simp : ¬false = true), one_mul]
    positivity
  · simp only [PyFloat.nonneg, PyFloat.val, Bool.not_true, Bool.false_or,
      Bool.and_eq_true, beq_iff_eq]
    rw [if_pos trivial, neg_one_mul, neg_nonneg]
    constructor
    · rintro ⟨h1, h2⟩
      subst h1
      subst h2
      simp
    · intro hv
      have hX : (0 : ℚ) ≤ ((ip : ℚ) + (fp : ℚ) / (10 : ℚ) ^ fplen) * (10 : ℚ) ^ e := by
        positivity
      have hx : ((ip : ℚ) + (fp : ℚ) / (10 : ℚ) ^ fplen) * (10 : ℚ) ^ e = 0 :=
        le_antisymm hv hX
      have hb0 : (ip : ℚ) + (fp : ℚ) / (10 : ℚ) ^ fplen = 0 := by
        rcases mul_eq_zero.mp hx with h | h
        · exact h
        · exact absurd h (ne_of_gt hpow)
      have hf0 : (0 : ℚ) ≤ (fp : ℚ) / (10 : ℚ) ^ fplen := by positivity
      have hip : (ip : ℚ) = 0 := by
        have : (0 : ℚ) ≤ (ip : ℚ) := by positivity
        linarith
      have hfr : (fp : ℚ) / (10 : ℚ) ^ fplen = 0 := by linarith
      have hfp : (fp : ℚ) = 0 := by
        rcases div_eq_zero_iff.mp hfr with h | h
        · exact h
        · exact absurd h (by positivity)
      exact ⟨Nat.cast_eq_zero.mp hip, Nat.cast_eq_zero.mp hfp⟩

theorem buildArgs_append (l1 l2 : List (String × Option String)) :
    buildArgs (l1 ++ l2)
      = ((buildArgs l1).1 ++ (buildArgs l2).1, (buildArgs l1).2 ++ (buildArgs l2).2) := by
  induction l1 with
  | nil => simp [buildArgs]
  | cons x rest ih =>
    rcases x with ⟨f, v⟩
    cases v with
    | none => simpa [buildArgs] using ih
    | some s => simp [buildArgs, ih, List.append_assoc]

theorem fieldArgs_gps (v : String) :
    fieldArgs "gps" v
      = (match parseGps v with
         | some (la, lo) => (gpsArgs la lo, [])
         | none => ([], ["Warning: Invalid GPS format: " ++ v])) := rfl

open PyFloat in
/-- C7: for a gps value parsing as two comma-separated decimal numbers,
`write` emits exactly the four GPS arguments — `GPSLatitude` carrying `|lat|`
with `GPSLatitudeRef` `N` when `lat >= 0` and `S` otherwise, and
`GPSLongitude` carrying `|lon|` with `GPSLongitudeRef` `E` when `lon >= 0`
and `W` otherwise. -/
theorem C7_gps_write (v : String) (lat lon : PyFloat) (h : parseGps v = some (lat, lon)) :
    (∀ (fp : String) (l1 l2 : List (String × Option String)),
        writeArgs fp (l1 ++ ("gps", some v) :: l2)
          = .flag "-overwrite_original"
              :: ((buildArgs l1).1 ++ (gpsArgs lat lon ++ ((buildArgs l2).1 ++ [.file fp]))))
      ∧ gpsArgs lat lon
          = [ .assign "-GPSLatitude" (.num lat.abs),
              .assign "-GPSLatitudeRef" (.txt (if lat.nonneg then "N" else "S")),
              .assign "-GPSLongitude" (.num lon.abs),
              .assign "-GPSLongitudeRef" (.txt (if lon.nonneg then "E" else "W")) ]
      ∧ lat.abs.val = |lat.val| ∧ lon.abs.val = |lon.val|
      ∧ (lat.nonneg = true ↔ 0 ≤ lat.val) ∧ (lon.nonneg = true ↔ 0 ≤ lon.val) := by
  refine ⟨?_, rfl, val_abs lat, val_abs lon, nonneg_iff lat, nonneg_iff lon⟩
  intro fp l1 l2
  have hb : buildArgs (("gps", some v) :: l2)
      = (gpsArgs lat lon ++ (buildArgs l2).1, (buildArgs l2).2) := by
    show ((fieldArgs "gps" v).1 ++ (buildArgs l2).1, (fieldArgs "gps" v).2 ++ (buildArgs l2).2)
      = _
    rw [fieldArgs_gps, h]
    rfl
  rw [writeArgs, buildArgs_append, hb]
  simp [List.append_assoc]

/-- Witness for C7 at gps value `52.52,13.405`. -/
theorem C7_gps_write_witness :
    writeArgs "p.jpg" ([] ++ ("gps", some "52.52,13.405") :: [])
      = .flag "-overwrite_original"
          :: ((buildArgs []).1
            ++ (gpsArgs ⟨false, 52, 52, 2, 0⟩ ⟨false, 13, 405, 3, 0⟩
              ++ ((buildArgs []).1 ++ [.file "p.jpg"]))) :=
  (C7_gps_write "52.52,13.405" ⟨false, 52, 52, 2, 0⟩ ⟨false, 13, 405, 3, 0⟩
      (by decide)).1 "p.jpg" [] []

/-- C10: a gps value that does not parse as two comma-separated numbers
contributes no argument at all — only a stderr warning — every other
requested field is still written unchanged, the malformed value never makes
`write` or `write_batch` report failure, and a `None`-valued field
contributes nothing. -/
theorem C10_gps_malformed (v : String) (h : parseGps v = none) :
    (∀ l1 l2, (buildArgs (l1 ++ ("gps", some v) :: l2)).1 = (buildArgs (l1 ++ l2)).1)
      ∧ (∀ l1 l2, writeWarnings (l1 ++ ("gps", some v) :: l2)
          = writeWarnings l1 ++ ("Warning: Invalid GPS format: " ++ v) :: writeWarnings l2)
      ∧ (∀ (tool : List ExifArg → Bool) (fp : String) l1 l2,
          write tool fp (l1 ++ ("gps", some v) :: l2) = write tool fp (l1 ++ l2))
      ∧ (∀ (tool : List ExifArg → Int × Option Nat) (fps : List String) l1 l2,
          write_batch tool fps (l1 ++ ("gps", some v) :: l2)
            = write_batch tool fps (l1 ++ l2))
      ∧ (∀ (f : String) l1 l2,
          buildArgs (l1 ++ (f, (none : Option String)) :: l2) = buildArgs (l1 ++ l2)) := by
  have hgps : ∀ l2, buildArgs (("gps", some v) :: l2)
      = ((buildArgs l2).1, ("Warning: Invalid GPS format: " ++ v) :: (buildArgs l2).2) := by
    intro l2
    show ((fieldArgs "gps" v).1 ++ (buildArgs l2).1, (fieldArgs "gps" v).2 ++ (buildArgs l2).2)
      = _
    rw [fieldArgs_gps, h]
    rfl
  have hnone : ∀ (f : String) l2, buildArgs ((f, (none : Option String)) :: l2) = buildArgs l2 :=
    fun f l2 => rfl
  have h1 : ∀ l1 l2, (buildArgs (l1 ++ ("gps", some v) :: l2)).1 = (buildArgs (l1 ++ l2)).1 := by
    intro l1 l2
    rw [buildArgs_append, buildArgs_append, hgps]
  refine ⟨h1, ?_, ?_, ?_, ?_⟩
  · intro l1 l2
    rw [writeWarnings, writeWarnings, writeWarnings, buildArgs_append, hgps]
  · intro tool fp l1 l2
    rw [write, write, writeArgs, writeArgs, h1]
  · intro tool fps l1 l2
    rw [write_batch, write_batch, writeBatchArgs, writeBatchArgs, h1]
  · intro f l1 l2
    rw [buildArgs_append, buildArgs_append, hnone]

/-- Witness for C10 at the malformed gps value `not-gps` alongside an
`author` field. -/
theorem C10_gps_malformed_witness :
    (buildArgs ([("author", some "A")] ++ ("gps", some "not-gps") :: [])).1
        = (buildArgs ([("author", some "A")] ++ [])).1
      ∧ writeWarnings ([("author", some "A")] ++ ("gps", some "not-gps") :: [])
        = writeWarnings [("author", some "A")]
            ++ ("Warning: Invalid GPS format: " ++ "not-gps") :: writeWarnings [] :=
  ⟨(C10_gps_malformed "not-gps" (by decide)).1 [("author", some "A")] [],
   (C10_gps_malformed "not-gps" (by decide)).2.1 [("author", some "A")] []⟩

/-- C6: `read_date` returns the metadata's original date — the
`DateTimeOriginal` field first, then `CreateDate` — when one is available,
otherwise falls back to the filesystem modification time
(`File:FileModifyDate`), and returns `None` exactly when none of the three is
available. -/
theorem C6_read_date (m : Metadata) :
    (∀ t, tryDateField m "EXIF:DateTimeOriginal" = some t → read_date m = some t)
      ∧ (tryDateField m "EXIF:DateTimeOriginal" = none →
          ∀ t, tryDateField m "EXIF:CreateDate" = some t → read_date m = some t)
      ∧ (tryDateField m "EXIF:DateTimeOriginal" = none →
          tryDateField m "EXIF:CreateDate" = none →
          read_date m = tryDateField m "File:FileModifyDate")
      ∧ (read_date m = none
          ↔ tryDateField m "EXIF:DateTimeOriginal" = none
              ∧ tryDateField m "EXIF:CreateDate" = none
              ∧ tryDateField m "File:FileModifyDate" = none) := by
  refine ⟨?_, ?_, ?_, ?_⟩
  · intro t h
    simp [read_date, h]
  · intro h1 t h2
    simp [read_date, h1, h2]
  · intro h1 h2
    simp [read_date, h1, h2]
  · constructor
    · intro h
      cases h1 : tryDateField m "EXIF:DateTimeOriginal" with
      | some t => simp [read_date, h1] at h
      | none =>
        cases h2 : tryDateField m "EXIF:CreateDate" with
        | some t => simp [read_date, h1, h2] at h
        | none => exact ⟨rfl, rfl, by simpa [read_date, h1, h2] using h⟩

    · rintro ⟨h1, h2, h3⟩
      simp [read_date, h1, h2, h3]

/-- Witness for C6: with only a `File:FileModifyDate` key present, `read_date`
is the modification-time fallback, here `2023-01-15 10:30:00`. -/
theorem C6_read_date_witness :
    read_date [("File:FileModifyDate", "2023:01:15 10:30:00+02:00")]
        = tryDateField [("File:FileModifyDate", "2023:01:15 10:30:00+02:00")]
            "File:FileModifyDate"
      ∧ tryDateField [("File:FileModifyDate", "2023:01:15 10:30:00+02:00")]
          "File:FileModifyDate" = some ⟨2023, 1, 15, 10, 30, 0⟩ :=
  ⟨(C6_read_date [("File:FileModifyDate", "2023:01:15 10:30:00+02:00")]).2.2.1
      (by decide) (by decide),
   by decide⟩

/-- C9: when the external tool exits non-zero or its output is not valid
JSON, `read` returns the empty map — and `read_date` consequently returns
`None` — rather than raising. -/
theorem C9_read_failure (rc : Int) (out : Option (List Metadata)) (h : rc ≠ 0 ∨ out = none) :
    read rc out = ([] : Metadata) ∧ read_date (read rc out) = none := by
  have hrd : read rc out = ([] : Metadata) := by
    rcases h with h | h
    · simp [read, h]
    · subst h
      by_cases h0 : rc = 0 <;> simp [read, h0]
  exact ⟨hrd, by rw [hrd]; rfl⟩

/-- Witness for C9 at exit code 1 with well-formed JSON output. -/
theorem C9_read_failure_witness :
    read 1 (some [[("EXIF:DateTimeOriginal", "2023:01:15 10:30:00")]]) = ([] : Metadata)
      ∧ read_date (read 1 (some [[("EXIF:DateTimeOriginal", "2023:01:15 10:30:00")]])) = none :=
  C9_read_failure 1 (some [[("EXIF:DateTimeOriginal", "2023:01:15 10:30:00")]])
    (Or.inl (by decide))

end ExifTool

end PixelGroomer
